import Mathlib

/-!
Shallow embedding of `src/graph_store.py` (classes `FileGraphStore` and
`FileGraphIntegration`) from the fileorganizer repository.

The Python module stores a property graph in two SQLite tables:

* `graph_nodes (id INTEGER PRIMARY KEY AUTOINCREMENT, node_type, node_id,
  label, properties, UNIQUE(node_type, node_id))`
* `graph_edges (id INTEGER PRIMARY KEY AUTOINCREMENT, from_node, to_node,
  edge_type, weight REAL, properties)`

We model each table as a list of rows kept in rowid order (SQLite scans and
returns rows in rowid order for the queries this module issues, none of which
carry an ORDER BY except where noted).  AUTOINCREMENT ids start at 1 and are
never reused, which we model with monotone `next_node_id` / `next_edge_id`
counters.  SQL `REAL` weights are modelled as `Rat`; every weight computation
in the module is addition of exact decimal literals, so no rounding concern
arises for the properties considered here.  JSON property bags are modelled
as association lists of strings; `json.dumps(properties) if properties else
None` keeps only truthy (non-`None`, non-empty) maps.  Timestamp columns
(`created_at`, `updated_at`) are never read by any function in the module and
are omitted from the row model.
-/

namespace FileGraphStore

/-- A row of `graph_nodes`. -/
structure NodeRow where
  id : Nat
  node_type : String
  node_id : String
  label : Option String
  properties : Option (List (String × String))
  deriving Repr, DecidableEq

/-- A row of `graph_edges` (timestamps omitted, see module comment). -/
structure EdgeRow where
  id : Nat
  from_node : Nat
  to_node : Nat
  edge_type : String
  weight : Rat
  properties : Option (List (String × String))
  deriving Repr, DecidableEq

/-- The persistent state behind a `FileGraphStore` connection: the two tables
in rowid order plus the AUTOINCREMENT counters. -/
structure GraphState where
  nodes : List NodeRow
  edges : List EdgeRow
  next_node_id : Nat
  next_edge_id : Nat
  deriving Repr, DecidableEq

/-- A fresh database after `init_graph_schema`: both tables empty,
AUTOINCREMENT counters at 1. -/
def emptyGraph : GraphState := ⟨[], [], 1, 1⟩

/-- `json.dumps(properties) if properties else None`: `None` and the empty
dict are falsy, so only a non-empty map is serialised. -/
def props_json (properties : Option (List (String × String))) :
    Option (List (String × String)) :=
  match properties with
  | none => none
  | some m => if m = [] then none else some m

/-- `FileGraphStore.add_node`.  The Python body runs
`INSERT OR REPLACE INTO graph_nodes (node_type, node_id, label, properties)`
and returns `cursor.lastrowid`.  On a `UNIQUE(node_type, node_id)` conflict
SQLite's REPLACE deletes the conflicting row and inserts a brand new row,
which (the table being AUTOINCREMENT) receives a fresh id; `lastrowid` is the
id of the newly inserted row in both cases. -/
def add_node (s : GraphState) (node_type node_id : String)
    (label : Option String) (properties : Option (List (String × String))) :
    GraphState × Nat :=
  let kept := s.nodes.filter
    (fun r => !(r.node_type == node_type && r.node_id == node_id))
  let row : NodeRow :=
    ⟨s.next_node_id, node_type, node_id, label, props_json properties⟩
  (⟨kept ++ [row], s.edges, s.next_node_id + 1, s.next_edge_id⟩,
   s.next_node_id)

/-- `FileGraphStore.get_node_pk`: `SELECT id FROM graph_nodes WHERE
node_type = ? AND node_id = ?`, `fetchone`.  The UNIQUE constraint makes the
match unique; we return the first matching row in rowid order. -/
def get_node_pk (s : GraphState) (node_type node_id : String) : Option Nat :=
  (s.nodes.find?
    (fun r => r.node_type == node_type && r.node_id == node_id)).map
    (fun r => r.id)

/-- `FileGraphStore.add_edge`.  Resolves (or lazily creates via `add_node`)
both endpoints — `if not from_pk` treats `None` as missing; AUTOINCREMENT ids
are ≥ 1 so 0 never arises — then either updates the first existing
`(from_node, to_node, edge_type)` row (`weight := old + weight`,
`properties := props_json properties`, i.e. the new JSON replaces the old
wholesale) or inserts a new edge row. -/
def add_edge (s : GraphState) (from_type from_id to_type to_id edge_type : String)
    (weight : Rat) (properties : Option (List (String × String))) : GraphState :=
  let s1p : GraphState × Nat :=
    match get_node_pk s from_type from_id with
    | some pk => (s, pk)
    | none => add_node s from_type from_id none none
  let s1 := s1p.1
  let from_pk := s1p.2
  let s2p : GraphState × Nat :=
    match get_node_pk s1 to_type to_id with
    | some pk => (s1, pk)
    | none => add_node s1 to_type to_id none none
  let s2 := s2p.1
  let to_pk := s2p.2
  match s2.edges.find?
      (fun e => e.from_node == from_pk && e.to_node == to_pk &&
        e.edge_type == edge_type) with
  | some e0 =>
      { s2 with
        edges := s2.edges.map (fun e =>
          if e.id == e0.id then
            { e with weight := e0.weight + weight,
                     properties := props_json properties }
          else e) }
  | none =>
      { s2 with
        edges := s2.edges ++
          [⟨s2.next_edge_id, from_pk, to_pk, edge_type, weight,
            props_json properties⟩],
        next_edge_id := s2.next_edge_id + 1 }

/-- One entry of the `get_neighbors` result: the tuple
`(n.node_type, n.node_id, n.label, e.edge_type, e.weight)` produced by the
SQL JOIN. -/
abbrev NeighborRow := String × String × Option String × String × Rat

/-- The Python call passes `edge_type=None` for "no filter"; an empty string
is also falsy (`if edge_type:`), hence also no filter. -/
def edge_type_matches (edge_type : Option String) (e : EdgeRow) : Bool :=
  match edge_type with
  | none => true
  | some t => if t = "" then true else e.edge_type == t

/-- `FileGraphStore.get_neighbors`.  Returns `[]` when the start node is
unknown.  Otherwise concatenates the outgoing JOIN result (when `direction`
is `out` or `both`) with the incoming JOIN result (when `in` or `both`); the
inner JOIN drops edges whose partner node row no longer exists. -/
def get_neighbors (s : GraphState) (node_type node_id : String)
    (edge_type : Option String) (direction : String) : List NeighborRow :=
  match get_node_pk s node_type node_id with
  | none => []
  | some pk =>
    let outs : List NeighborRow :=
      if direction = "out" ∨ direction = "both" then
        (s.edges.filter
            (fun e => e.from_node == pk && edge_type_matches edge_type e)).filterMap
          (fun e => (s.nodes.find? (fun n => n.id == e.to_node)).map
            (fun n => (n.node_type, n.node_id, n.label, e.edge_type, e.weight)))
      else []
    let ins : List NeighborRow :=
      if direction = "in" ∨ direction = "both" then
        (s.edges.filter
            (fun e => e.to_node == pk && edge_type_matches edge_type e)).filterMap
          (fun e => (s.nodes.find? (fun n => n.id == e.from_node)).map
            (fun n => (n.node_type, n.node_id, n.label, e.edge_type, e.weight)))
      else []
    outs ++ ins

/-- One hop of a `find_path` result: the tuple
`(current_pk, edge_type, neighbor_pk)` appended by the BFS. -/
abbrev Step := Nat × String × Nat

/-- The neighbor query of `find_path`:
`SELECT to_node, edge_type ... WHERE from_node = ? UNION
 SELECT from_node, edge_type ... WHERE to_node = ?`.
SQL UNION removes duplicate result rows; its output order is unspecified, we
model it as the deduplicated concatenation in query-text order. -/
def neighbors_query (edges : List EdgeRow) (pk : Nat) : List (Nat × String) :=
  (((edges.filter (fun e => e.from_node == pk)).map
      (fun e => (e.to_node, e.edge_type))) ++
   ((edges.filter (fun e => e.to_node == pk)).map
      (fun e => (e.from_node, e.edge_type)))).dedup

/-- The inner `for neighbor_pk, edge_type in cursor.fetchall()` loop of
`find_path`: skips visited neighbors, returns the extended path as soon as
the target is reached, otherwise marks the neighbor visited and appends it to
the BFS queue.  Result: (early-return value, final visited, final queue). -/
def bfs_scan (to_pk current_pk : Nat) (path : List Step) :
    List (Nat × String) → List Nat → List (Nat × List Step) →
    Option (List Step) × List Nat × List (Nat × List Step)
  | [], visited, queue => (none, visited, queue)
  | (neighbor_pk, edge_type) :: rest, visited, queue =>
    if neighbor_pk ∈ visited then
      bfs_scan to_pk current_pk path rest visited queue
    else
      let new_path := path ++ [(current_pk, edge_type, neighbor_pk)]
      if neighbor_pk = to_pk then (some new_path, visited, queue)
      else bfs_scan to_pk current_pk path rest (neighbor_pk :: visited)
        (queue ++ [(neighbor_pk, new_path)])

/-- The `while queue and len(queue[0][1]) < max_depth` loop of `find_path`.
The guard inspects the front entry before popping it, so a front entry whose
path has already reached `max_depth` terminates the whole loop with `None`.
`fuel` bounds the number of iterations; see `find_path` for why the fuel
passed there can never be exhausted. -/
def bfs_loop (edges : List EdgeRow) (to_pk max_depth : Nat) :
    Nat → List (Nat × List Step) → List Nat → Option (List Step)
  | 0, _, _ => none
  | _ + 1, [], _ => none
  | fuel + 1, (current_pk, path) :: rest, visited =>
    if path.length < max_depth then
      match bfs_scan to_pk current_pk path
          (neighbors_query edges current_pk) visited rest with
      | (some p, _, _) => some p
      | (none, visited', queue') => bfs_loop edges to_pk max_depth fuel queue' visited'
    else none

/-- `FileGraphStore.find_path`: BFS for a shortest path, treating stored
edges as undirected.  Returns `None` when either endpoint is unknown, `[]`
when both resolve to the same node.  The Python `while` loop needs no fuel:
every enqueue is guarded by the visited set, and only node ids occurring in
some edge row are ever enqueued after the start node, so at most
`1 + 2 * edges.length` entries ever enter the queue and the loop runs at most
that many iterations; `2 * edges.length + 2` therefore over-approximates the
iteration count and the fuelled loop computes exactly the Python result. -/
def find_path (s : GraphState) (from_type from_id to_type to_id : String)
    (max_depth : Nat) : Option (List Step) :=
  match get_node_pk s from_type from_id, get_node_pk s to_type to_id with
  | some from_pk, some to_pk =>
    if from_pk = to_pk then some []
    else bfs_loop s.edges to_pk max_depth (2 * s.edges.length + 2)
      [(from_pk, [])] [from_pk]
  | _, _ => none

/-- One entry of the `get_subgraph` edge list: the dict
`{'from': from_pk, 'to': to_pk, 'type': edge_type, 'weight': weight}`. -/
structure SubEdge where
  from_node : Nat
  to_node : Nat
  edge_type : String
  weight : Rat
  deriving Repr, DecidableEq

/-- The edge dict appended by `get_subgraph` for a fetched edge row. -/
def toSubEdge (e : EdgeRow) : SubEdge :=
  ⟨e.from_node, e.to_node, e.edge_type, e.weight⟩

/-- The `get_subgraph` edge query for one expanded node:
`SELECT from_node, to_node, edge_type, weight FROM graph_edges
 WHERE from_node = ? OR to_node = ?` in rowid order. -/
def edges_touching (edges : List EdgeRow) (pk : Nat) : List EdgeRow :=
  edges.filter (fun e => e.from_node == pk || e.to_node == pk)

/-- The per-edge-row tail of the `get_subgraph` inner loop: compute the
neighbor on the far side of the fetched row and enqueue it at `depth + 1`
unless already visited.  The accumulator is `(queue, visited_nodes)`. -/
def sub_push (current_pk depth : Nat)
    (acc : List (Nat × Nat) × List Nat) (e : EdgeRow) :
    List (Nat × Nat) × List Nat :=
  let neighbor := if e.from_node == current_pk then e.to_node else e.from_node
  if neighbor ∈ acc.2 then acc
  else (acc.1 ++ [(neighbor, depth + 1)], neighbor :: acc.2)

/-- The `while queue` loop of `get_subgraph`: a node popped at
`depth ≥ max_depth` is skipped (`continue`) without fetching its edges; an
expanded node contributes every touching edge row to the edge list and
enqueues its unvisited neighbors.  Returns the accumulated edge dicts and the
final visited set.  Fuel as in `find_path`: at most `1 + 2 * edges.length`
entries ever enter the queue. -/
def subgraph_loop (g : List EdgeRow) (max_depth : Nat) :
    Nat → List (Nat × Nat) → List Nat → List SubEdge × List Nat
  | 0, _, visited => ([], visited)
  | _ + 1, [], visited => ([], visited)
  | fuel + 1, (current_pk, depth) :: rest, visited =>
    if depth ≥ max_depth then subgraph_loop g max_depth fuel rest visited
    else
      let rows := edges_touching g current_pk
      let qv := rows.foldl (sub_push current_pk depth) (rest, visited)
      let ev := subgraph_loop g max_depth fuel qv.1 qv.2
      (rows.map toSubEdge ++ ev.1, ev.2)

/-- The sequence of nodes `get_subgraph` expands (pops at depth strictly
below `max_depth`), mirroring the recursion of `subgraph_loop`. -/
def sub_expanded (g : List EdgeRow) (max_depth : Nat) :
    Nat → List (Nat × Nat) → List Nat → List Nat
  | 0, _, _ => []
  | _ + 1, [], _ => []
  | fuel + 1, (current_pk, depth) :: rest, visited =>
    if depth ≥ max_depth then sub_expanded g max_depth fuel rest visited
    else
      let rows := edges_touching g current_pk
      let qv := rows.foldl (sub_push current_pk depth) (rest, visited)
      current_pk :: sub_expanded g max_depth fuel qv.1 qv.2

/-- One entry of the `get_subgraph` node list: the dict
`{'pk': id, 'type': node_type, 'id': node_id, 'label': label}`. -/
structure SubNode where
  pk : Nat
  node_type : String
  node_id : String
  label : Option String
  deriving Repr, DecidableEq

/-- The `get_subgraph` result `{'nodes': ..., 'edges': ...}`. -/
structure SubgraphResult where
  nodes : List SubNode
  edges : List SubEdge
  deriving Repr, DecidableEq

/-- `FileGraphStore.get_subgraph`: `{'nodes': [], 'edges': []}` for an
unknown start node, otherwise the BFS loop above followed by
`SELECT id, node_type, node_id, label FROM graph_nodes WHERE id IN (visited)`
(a table scan in rowid order). -/
def get_subgraph (s : GraphState) (node_type node_id : String)
    (max_depth : Nat) : SubgraphResult :=
  match get_node_pk s node_type node_id with
  | none => ⟨[], []⟩
  | some pk =>
    let ev := subgraph_loop s.edges max_depth (2 * s.edges.length + 2)
      [(pk, 0)] [pk]
    ⟨(s.nodes.filter (fun n => n.id ∈ ev.2)).map
        (fun n => ⟨n.id, n.node_type, n.node_id, n.label⟩),
      ev.1⟩

/-- The nodes `get_subgraph s node_type node_id max_depth` expands, i.e. pops
at depth strictly below `max_depth` (the mirror of its edge recursion). -/
def expanded_nodes (s : GraphState) (node_type node_id : String)
    (max_depth : Nat) : List Nat :=
  match get_node_pk s node_type node_id with
  | none => []
  | some pk =>
    sub_expanded s.edges max_depth (2 * s.edges.length + 2) [(pk, 0)] [pk]

/-- A row of the application's `files` table as selected by
`build_graph_from_database`: `SELECT id, path, filename, project, ai_tags
FROM files WHERE status = 'active'`.  `project` and `ai_tags` are nullable
TEXT columns. -/
structure FileRow where
  id : Nat
  path : String
  filename : String
  project : Option String
  ai_tags : Option String
  deriving Repr, DecidableEq

/-- A row of `file_relationships`: `SELECT file1_id, file2_id, strength`. -/
structure FileRel where
  file1_id : Nat
  file2_id : Nat
  strength : Rat
  deriving Repr, DecidableEq

/-- Truthiness of a nullable TEXT value in Python: `None` and `''` are
falsy. -/
def str_truthy (o : Option String) : Bool :=
  match o with
  | none => false
  | some t => !(t == "")

/-- The body of the per-file loop of
`FileGraphIntegration.build_graph_from_database`: add the file node, link it
to its project when `project` is truthy, and to each non-empty stripped tag
when `ai_tags` is truthy. -/
def build_file (g : GraphState) (f : FileRow) : GraphState :=
  let g1 := (add_node g "file" (toString f.id) (some f.filename) none).1
  let g2 :=
    match f.project with
    | none => g1
    | some p =>
      if p = "" then g1
      else
        let ga := (add_node g1 "project" p (some p) none).1
        add_edge ga "file" (toString f.id) "project" p "belongs_to" 1 none
  match f.ai_tags with
  | none => g2
  | some tags =>
    if tags = "" then g2
    else
      (tags.splitOn ",").foldl (fun gacc t0 =>
        let tag := t0.trim
        if tag = "" then gacc
        else
          let ga := (add_node gacc "tag" tag (some tag) none).1
          add_edge ga "file" (toString f.id) "tag" tag "tagged_with" 1 none) g2

/-- `FileGraphIntegration.build_graph_from_database` (state effect; the
Python method finally returns `get_stats()`, which reads but does not change
the state).  `files` models the `status = 'active'` rows of the `files`
table in rowid order, `rels` the rows of `file_relationships`. -/
def build_graph_from_database (g : GraphState) (files : List FileRow)
    (rels : List FileRel) : GraphState :=
  let g1 := files.foldl build_file g
  rels.foldl (fun gc r =>
    add_edge gc "file" (toString r.file1_id) "file" (toString r.file2_id)
      "related_to" r.strength none) g1

/-!
Specification-side notions and concrete stores used to settle the claims.
-/

/-- A path step `(c, t, n)` is backed by a stored edge row in either
direction: the undirected reading of the edge table that `find_path`'s
UNION query implements. -/
def step_ok (edges : List EdgeRow) (st : Step) : Prop :=
  ∃ e ∈ edges, e.edge_type = st.2.1 ∧
    ((e.from_node = st.1 ∧ e.to_node = st.2.2) ∨
     (e.from_node = st.2.2 ∧ e.to_node = st.1))

/-- `walk edges x p y`: `p` is a chain of undirected hops leading from node
`x` to node `y` over the stored edge rows.  The hop count between two nodes
exceeds `d` exactly when every such walk has length `> d`. -/
def walk (edges : List EdgeRow) : Nat → List Step → Nat → Prop
  | x, [], y => x = y
  | x, (c, t, n) :: rest, y => c = x ∧ step_ok edges (c, t, n) ∧ walk edges n rest y

/-- The chain `A–B–C–D` of the depth-bound scenario (4 nodes, 3 edges),
entered through the public write API. -/
def chainABCD : GraphState :=
  add_edge (add_edge (add_edge emptyGraph "n" "A" "n" "B" "link" 1 none)
    "n" "B" "n" "C" "link" 1 none) "n" "C" "n" "D" "link" 1 none

/-- Two isolated nodes (no edges at all). -/
def twoIsolated : GraphState :=
  (add_node (add_node emptyGraph "n" "A" none none).1 "n" "B" none none).1

/-- A triangle `S–A`, `S–B`, `A–B`: with `max_depth = 1` both `A` and `B`
sit exactly at the depth boundary while the edge `A–B` joins them. -/
def triangleSAB : GraphState :=
  add_edge (add_edge (add_edge emptyGraph "n" "S" "n" "A" "e" 1 none)
    "n" "S" "n" "B" "e" 1 none) "n" "A" "n" "B" "e" 1 none

/-- A single stored edge `A→B`. -/
def twoNodeEdge : GraphState :=
  add_edge emptyGraph "n" "A" "n" "B" "e" 1 none

/-- The store after observing the Acme edge once with properties
`{"a": "1"}`. -/
def acmePropsOnce : GraphState :=
  add_edge emptyGraph "file" "1" "project" "Acme" "belongs_to" 1
    (some [("a", "1")])

/-- … and then once more with properties `{"b": "2"}`. -/
def acmePropsTwice : GraphState :=
  add_edge acmePropsOnce "file" "1" "project" "Acme" "belongs_to" 1
    (some [("b", "2")])

/-- One active file in project `Acme`, no tags, no explicit
relationships. -/
def oneFileAcme : List FileRow := [⟨1, "/docs/a.pdf", "a.pdf", some "Acme", none⟩]

/-- First `build_graph_from_database` run over `oneFileAcme`. -/
def acmeRun1 : GraphState := build_graph_from_database emptyGraph oneFileAcme []

/-- Second, identical `build_graph_from_database` run. -/
def acmeRun2 : GraphState := build_graph_from_database acmeRun1 oneFileAcme []

/-- A store holding exactly one known node, `file:1`. -/
def oneNodeStore : GraphState :=
  (add_node emptyGraph "file" "1" (some "invoice.pdf") none).1

/-- The store shape reached by observing one edge between two distinct fresh
entities any number of times from an empty store: the two auto-vivified
node rows and a single edge row whose weight is the running total `W`. -/
def singleEdgeState (ft fi tt ti et : String) (W : Rat) : GraphState :=
  ⟨[⟨1, ft, fi, none, none⟩, ⟨2, tt, ti, none, none⟩],
   [⟨1, 1, 2, et, W, none⟩], 3, 2⟩

/-!
Claim theorems.
-/

/-- C1: the claim demands that re-adding an existing `(entity_type,
entity_id)` node keeps its `internal_id`.  The code's `INSERT OR REPLACE`
deletes the conflicting row and inserts a fresh AUTOINCREMENT row instead:
on a fresh store, `add_node("file","1","a.pdf")` returns handle 1, the
identical second call returns handle 2, and afterwards no node row with id 1
exists any more (the edge-orphaning hazard the spec itself names in its
design notes). -/
theorem add_node_reassigns_internal_id :
    (add_node emptyGraph "file" "1" (some "a.pdf") none).2 = 1 ∧
    (add_node (add_node emptyGraph "file" "1" (some "a.pdf") none).1
      "file" "1" (some "a.pdf") none).2 = 2 ∧
    ((add_node (add_node emptyGraph "file" "1" (some "a.pdf") none).1
      "file" "1" (some "a.pdf") none).1).nodes.map NodeRow.id = [2] := by
  decide

/-- C7 counterexample: the claim says a write with an empty `entity_type` or
`entity_id` raises `ValidationError` and leaves the store unchanged.  The
code has no validation at all: `add_node("","")` and an `add_edge` whose
identity fields are all empty both return normally and mutate the store. -/
theorem empty_identity_write_mutates_store :
    ¬((add_node emptyGraph "" "" none none).1 = emptyGraph) ∧
    ¬(add_edge emptyGraph "" "" "" "" "t" 1 none = emptyGraph) := by
  decide

/-- C7 amended: neither `add_node` nor `add_edge` validates its identity
fields.  A write with empty `entity_type`/`entity_id` succeeds without any
error and is fully applied: `add_node("","")` stores a node row with empty
identity and returns its handle 1, and `add_edge` with all-empty identity
fields auto-vivifies that node and stores a (self-loop) edge row. -/
theorem empty_identity_write_is_accepted :
    (add_node emptyGraph "" "" none none).1.nodes = [⟨1, "", "", none, none⟩] ∧
    (add_node emptyGraph "" "" none none).2 = 1 ∧
    (add_edge emptyGraph "" "" "" "" "t" 1 none).nodes
      = [⟨1, "", "", none, none⟩] ∧
    (add_edge emptyGraph "" "" "" "" "t" 1 none).edges
      = [⟨1, 1, 1, "t", 1, none⟩] := by
  decide

/-- C8 counterexample: the claim says re-observing an edge merges the old
and new property maps, preserving old keys absent from the new map.  After
observing the Acme edge with `{"a":"1"}` and then with `{"b":"2"}`, the
stored map is exactly `{"b":"2"}`: the key `"a"` is gone. -/
theorem edge_properties_not_merged :
    acmePropsTwice.edges.map EdgeRow.properties = [some [("b", "2")]] ∧
    (∀ e ∈ acmePropsTwice.edges, ∀ m, e.properties = some m →
      ∀ kv ∈ m, kv.1 ≠ "a") := by
  decide

/-- C9 counterexample: the claim says running `build_graph_from_database`
twice over unchanged file facts leaves every edge with exactly twice its
single-run weight.  Over one active file in project `Acme`, the single run
produces one `belongs_to` edge of weight 1; the second run produces a second
edge row of weight 1 — no edge ever reaches weight 2. -/
theorem rebuild_twice_does_not_double_weights :
    acmeRun1.edges.map EdgeRow.weight = [1] ∧
    acmeRun2.edges.map EdgeRow.weight = [1, 1] ∧
    (∀ e ∈ acmeRun2.edges, ¬e.weight = 2) := by
  decide

/-- C9 amended: `build_graph_from_database` is indeed not idempotent, but
not by weight doubling.  Because `add_node` replaces an existing node row
with a fresh id, the second run re-keys every node (ids 3 and 4 replace 1
and 2), so its `add_edge` calls find no existing row for the new id pair and
insert fresh edge rows with the single-run weights: the edge-row count
doubles, every row keeps weight 1, and the first run's edge still references
the deleted node ids 1 and 2 (it is orphaned). -/
theorem rebuild_twice_duplicates_edges :
    acmeRun1.edges = [⟨1, 1, 2, "belongs_to", 1, none⟩] ∧
    acmeRun2.edges.length = 2 * acmeRun1.edges.length ∧
    acmeRun2.edges.map EdgeRow.weight = [1, 1] ∧
    (∃ e ∈ acmeRun2.edges, e.from_node = 1 ∧ e.to_node = 2) ∧
    acmeRun2.nodes.map NodeRow.id = [3, 4] := by
  decide

/-- Helper: boolean identity-match of two distinct composite identities. -/
theorem identity_beq_false {ft fi tt ti : String} (h : (ft, fi) ≠ (tt, ti)) :
    (ft == tt && fi == ti) = false := by
  by_cases hft : ft = tt
  · by_cases hfi : fi = ti
    · exact absurd (by rw [hft, hfi]) h
    · simp [hfi]
  · simp [hft]

/-- Helper: the REPLACE filter keeps a row of a different identity. -/
theorem identity_filter_true {ft fi tt ti : String}
    (h : (ft, fi) ≠ (tt, ti)) : (!(ft == tt) || !(fi == ti)) = true := by
  rw [← Bool.not_and, identity_beq_false h]
  rfl

/-- Observing one edge between two distinct fresh entities on the empty
store auto-vivifies both nodes and stores the edge with the given weight. -/
theorem add_edge_fresh_pair (ft fi tt ti et : String) (w : Rat)
    (h : (ft, fi) ≠ (tt, ti)) :
    add_edge emptyGraph ft fi tt ti et w none
      = singleEdgeState ft fi tt ti et w := by
  simp [add_edge, get_node_pk, emptyGraph, add_node, props_json,
    singleEdgeState, List.find?, identity_beq_false h, identity_filter_true h]

/-- Re-observing the same edge on `singleEdgeState` adds the weight delta to
the single stored row and keeps everything else unchanged. -/
theorem add_edge_again (ft fi tt ti et : String) (W w : Rat)
    (h : (ft, fi) ≠ (tt, ti)) :
    add_edge (singleEdgeState ft fi tt ti et W) ft fi tt ti et w none
      = singleEdgeState ft fi tt ti et (W + w) := by
  simp [add_edge, get_node_pk, singleEdgeState, List.find?, props_json,
    identity_beq_false h]

/-- Folding further observations over `singleEdgeState` accumulates their
sum onto the stored weight. -/
theorem foldl_add_edge_single (ft fi tt ti et : String)
    (h : (ft, fi) ≠ (tt, ti)) :
    ∀ (ws : List Rat) (W : Rat),
      ws.foldl (fun s w => add_edge s ft fi tt ti et w none)
        (singleEdgeState ft fi tt ti et W)
      = singleEdgeState ft fi tt ti et (W + ws.sum)
  | [], W => by simp
  | w :: rest, W => by
    rw [List.foldl_cons, add_edge_again ft fi tt ti et W w h,
      foldl_add_edge_single ft fi tt ti et h rest (W + w)]
    rw [List.sum_cons, add_assoc]

/-- C2: observing the same `(from, to, edge_type)` triple repeatedly — any
non-empty sequence of `add_edge` calls with weight deltas `ws` between two
distinct entities, starting from an empty store — leaves exactly one edge
row for the triple, and its weight is the sum of all observed deltas.  In
particular two observations with weight 1.0 leave one row of weight 2.0
(see the witness). -/
theorem observe_edge_accumulates (ft fi tt ti et : String) (ws : List Rat)
    (h : (ft, fi) ≠ (tt, ti)) (hws : ws ≠ []) :
    (ws.foldl (fun s w => add_edge s ft fi tt ti et w none)
      emptyGraph).edges = [⟨1, 1, 2, et, ws.sum, none⟩] := by
  cases ws with
  | nil => exact absurd rfl hws
  | cons w rest =>
    rw [List.foldl_cons, add_edge_fresh_pair ft fi tt ti et w h,
      foldl_add_edge_single ft fi tt ti et h rest w]
    simp [singleEdgeState, List.sum_cons]

/-- C2 witness: two weight-1.0 observations of
`file:1 −belongs_to→ project:Acme` from the empty store yield exactly one
edge row of weight 2.0. -/
theorem observe_edge_accumulates_witness :
    (("file", "1") ≠ ("project", "Acme")) ∧ ([(1 : Rat), 1] ≠ []) ∧
    (([(1 : Rat), 1]).foldl
      (fun s w => add_edge s "file" "1" "project" "Acme" "belongs_to" w none)
      emptyGraph).edges = [⟨1, 1, 2, "belongs_to", 2, none⟩] := by
  refine ⟨by decide, by decide, ?_⟩
  have h := observe_edge_accumulates "file" "1" "project" "Acme" "belongs_to"
    [1, 1] (by decide) (by decide)
  have hsum : ([(1 : Rat), 1]).sum = 2 := by
    norm_num [List.sum_cons, List.sum_nil]
  rw [h, hsum]

/-- C6: querying an unknown `(entity_type, entity_id)` is never an error.
All three read operations are total functions in this embedding — none of
the corresponding Python paths can raise — and when the identity resolves to
no node, `get_neighbors` returns `[]`, `find_path` returns `None` with the
unknown identity on either side, and `get_subgraph` returns the empty
node/edge result. -/
theorem unknown_node_queries_are_empty (s : GraphState) (nt ni : String)
    (h : get_node_pk s nt ni = none) :
    (∀ et dir, get_neighbors s nt ni et dir = []) ∧
    (∀ ot oi d, find_path s nt ni ot oi d = none ∧
      find_path s ot oi nt ni d = none) ∧
    (∀ d, get_subgraph s nt ni d = ⟨[], []⟩) := by
  refine ⟨fun et dir => ?_, fun ot oi d => ⟨?_, ?_⟩, fun d => ?_⟩
  · simp [get_neighbors, h]
  · simp [find_path, h]
  · rcases hx : get_node_pk s ot oi with _ | pk <;> simp [find_path, h, hx]
  · simp [get_subgraph, h]

/-- C6 witness: against a store holding only `file:1`, the unknown identity
`x:y` yields `none` from `get_node_pk`, an empty neighbor list, `None` paths
in both query directions, and an empty subgraph. -/
theorem unknown_node_queries_are_empty_witness :
    get_node_pk oneNodeStore "x" "y" = none ∧
    get_neighbors oneNodeStore "x" "y" none "both" = [] ∧
    find_path oneNodeStore "x" "y" "file" "1" 5 = none ∧
    find_path oneNodeStore "file" "1" "x" "y" 5 = none ∧
    get_subgraph oneNodeStore "x" "y" 2 = ⟨[], []⟩ := by
  have h : get_node_pk oneNodeStore "x" "y" = none := by decide
  have hc := unknown_node_queries_are_empty oneNodeStore "x" "y" h
  exact ⟨h, hc.1 none "both", (hc.2.1 "file" "1" 5).1,
    (hc.2.1 "file" "1" 5).2, hc.2.2 2⟩

/-- Helper: a stored edge contributes its forward hop to the UNION neighbor
query of its `from` endpoint. -/
theorem mem_neighbors_query_from {edges : List EdgeRow} {e : EdgeRow} {a : Nat}
    (he : e ∈ edges) (hf : e.from_node = a) :
    (e.to_node, e.edge_type) ∈ neighbors_query edges a := by
  unfold neighbors_query
  rw [List.mem_dedup]
  exact List.mem_append_left _
    (List.mem_map_of_mem _ (List.mem_filter.mpr ⟨he, by simp [hf]⟩))

/-- Helper: a stored edge contributes its backward hop to the UNION neighbor
query of its `to` endpoint. -/
theorem mem_neighbors_query_to {edges : List EdgeRow} {e : EdgeRow} {a : Nat}
    (he : e ∈ edges) (ht : e.to_node = a) :
    (e.from_node, e.edge_type) ∈ neighbors_query edges a := by
  unfold neighbors_query
  rw [List.mem_dedup]
  exact List.mem_append_right _
    (List.mem_map_of_mem _ (List.mem_filter.mpr ⟨he, by simp [ht]⟩))

/-- Helper: every hop produced by the UNION neighbor query is backed by a
stored edge row in one direction or the other. -/
theorem neighbors_query_step_ok {edges : List EdgeRow} {c n : Nat} {t : String}
    (h : (n, t) ∈ neighbors_query edges c) : step_ok edges (c, t, n) := by
  unfold neighbors_query at h
  rw [List.mem_dedup, List.mem_append] at h
  rcases h with h | h
  · rcases List.mem_map.mp h with ⟨e, hmem, heq⟩
    rcases List.mem_filter.mp hmem with ⟨he, hp⟩
    rcases Prod.mk.injEq .. ▸ heq with ⟨hn, ht⟩
    exact ⟨e, he, ht, Or.inl ⟨by simpa using hp, hn⟩⟩
  · rcases List.mem_map.mp h with ⟨e, hmem, heq⟩
    rcases List.mem_filter.mp hmem with ⟨he, hp⟩
    rcases Prod.mk.injEq .. ▸ heq with ⟨hn, ht⟩
    exact ⟨e, he, ht, Or.inr ⟨hn, by simpa using hp⟩⟩

/-- Helper: a walk extends by one backed hop at its far end. -/
theorem walk_append {edges : List EdgeRow} {c n : Nat} {t : String} :
    ∀ {p : List Step} {x : Nat}, walk edges x p c → step_ok edges (c, t, n) →
      walk edges x (p ++ [(c, t, n)]) n
  | [], x, hw, hs => by
    simp only [walk] at hw
    simp only [List.nil_append, walk]
    exact ⟨hw.symm, hs, trivial⟩
  | (c1, t1, n1) :: rest, x, hw, hs => by
    simp only [walk] at hw ⊢
    exact ⟨hw.1, hw.2.1, walk_append hw.2.2 hs⟩

/-- Helper: when the target sits unvisited in the neighbor list, the inner
scan of `find_path` returns early with a path one hop longer than the popped
path. -/
theorem bfs_scan_finds {to_pk : Nat} {t : String} :
    ∀ (ns : List (Nat × String)) (visited : List Nat)
      (q : List (Nat × List Step)) (c : Nat) (path : List Step),
      (to_pk, t) ∈ ns → to_pk ∉ visited →
      ∃ p v2 q2, bfs_scan to_pk c path ns visited q = (some p, v2, q2) ∧
        p.length = path.length + 1
  | [], _, _, _, _, hmem, _ => absurd hmem (List.not_mem_nil _)
  | (m, u) :: rest, visited, q, c, path, hmem, hnv => by
    simp only [bfs_scan]
    by_cases hv : m ∈ visited
    · rw [if_pos hv]
      have hm : m ≠ to_pk := fun h => hnv (h ▸ hv)
      have : (to_pk, t) ∈ rest := by
        rcases List.mem_cons.mp hmem with h | h
        · exact absurd (congrArg Prod.fst h).symm hm
        · exact h
      exact bfs_scan_finds rest visited q c path this hnv
    · rw [if_neg hv]
      by_cases hm : m = to_pk
      · rw [if_pos hm]
        exact ⟨_, _, _, rfl, by simp⟩
      · rw [if_neg hm]
        have hrest : (to_pk, t) ∈ rest := by
          rcases List.mem_cons.mp hmem with h | h
          · exact absurd (congrArg Prod.fst h).symm hm
          · exact h
        have hnv2 : to_pk ∉ m :: visited := by
          intro h
          rcases List.mem_cons.mp h with h | h
          · exact hm h.symm
          · exact hnv h
        exact bfs_scan_finds rest (m :: visited) _ c path hrest hnv2

/-- Helper: an early return of the inner scan is the popped path extended by
one hop from the neighbor list, ending at the target. -/
theorem bfs_scan_some {to_pk c : Nat} {path p : List Step} :
    ∀ {ns : List (Nat × String)} {visited : List Nat}
      {q q2 : List (Nat × List Step)} {v2 : List Nat},
      bfs_scan to_pk c path ns visited q = (some p, v2, q2) →
      ∃ n u, (n, u) ∈ ns ∧ n = to_pk ∧ p = path ++ [(c, u, n)]
  | [], _, _, _, _, h => by
    simp only [bfs_scan, Prod.mk.injEq] at h
    exact Option.noConfusion h.1
  | (m, u) :: rest, visited, q, q2, v2, h => by
    simp only [bfs_scan] at h
    by_cases hv : m ∈ visited
    · rw [if_pos hv] at h
      rcases bfs_scan_some h with ⟨n, u', hmem, hn, hp⟩
      exact ⟨n, u', List.mem_cons_of_mem _ hmem, hn, hp⟩
    · rw [if_neg hv] at h
      by_cases hm : m = to_pk
      · rw [if_pos hm] at h
        simp only [Prod.mk.injEq] at h
        refine ⟨m, u, List.mem_cons_self .., hm, ?_⟩
        injection h.1 with h1
        exact h1.symm
      · rw [if_neg hm] at h
        rcases bfs_scan_some h with ⟨n, u', hmem, hn, hp⟩
        exact ⟨n, u', List.mem_cons_of_mem _ hmem, hn, hp⟩

/-- Helper: when the inner scan does not return early, every entry of the
resulting queue is either an old entry or a neighbor reached by extending
the popped path with one hop from the neighbor list. -/
theorem bfs_scan_none_mem {to_pk c : Nat} {path : List Step} :
    ∀ {ns : List (Nat × String)} {visited v2 : List Nat}
      {q q2 : List (Nat × List Step)},
      bfs_scan to_pk c path ns visited q = (none, v2, q2) →
      ∀ x ∈ q2, x ∈ q ∨ ∃ n u, (n, u) ∈ ns ∧ x = (n, path ++ [(c, u, n)])
  | [], _, _, _, _, h, x, hx => by
    simp only [bfs_scan, Prod.mk.injEq] at h
    exact Or.inl (by rw [h.2.2]; exact hx)
  | (m, u) :: rest, visited, v2, q, q2, h, x, hx => by
    simp only [bfs_scan] at h
    by_cases hv : m ∈ visited
    · rw [if_pos hv] at h
      rcases bfs_scan_none_mem h x hx with hq | ⟨n, u', hmem, hp⟩
      · exact Or.inl hq
      · exact Or.inr ⟨n, u', List.mem_cons_of_mem _ hmem, hp⟩
    · rw [if_neg hv] at h
      by_cases hm : m = to_pk
      · rw [if_pos hm] at h
        simp only [Prod.mk.injEq] at h
        exact Option.noConfusion h.1
      · rw [if_neg hm] at h
        rcases bfs_scan_none_mem h x hx with hq | ⟨n, u', hmem, hp⟩
        · rcases List.mem_append.mp hq with hq | hq
          · exact Or.inl hq
          · refine Or.inr ⟨m, u, List.mem_cons_self .., ?_⟩
            simpa using hq
        · exact Or.inr ⟨n, u', List.mem_cons_of_mem _ hmem, hp⟩

/-- Helper: any path returned by the BFS loop of `find_path` is a genuine
undirected walk from the start node to the target, and its hop count never
exceeds `max_depth` (holds for every fuel value, early exits included). -/
theorem bfs_loop_sound {edges : List EdgeRow} {start to_pk d : Nat} :
    ∀ (fuel : Nat) (queue : List (Nat × List Step)) (visited : List Nat)
      (p : List Step),
      (∀ x ∈ queue, walk edges start x.2 x.1) →
      bfs_loop edges to_pk d fuel queue visited = some p →
      walk edges start p to_pk ∧ p.length ≤ d
  | 0, _, _, _, _, h => by simp [bfs_loop] at h
  | fuel + 1, [], _, _, _, h => by simp [bfs_loop] at h
  | fuel + 1, (c, path) :: rest, visited, p, hinv, h => by
    simp only [bfs_loop] at h
    by_cases hlt : path.length < d
    · rw [if_pos hlt] at h
      rcases hr : bfs_scan to_pk c path (neighbors_query edges c) visited rest
        with ⟨ro, v2, q2⟩
      rw [hr] at h
      cases ro with
      | some p' =>
        have hpp : p' = p := by injection h
        subst hpp
        rcases bfs_scan_some hr with ⟨n, u, hmem, hn, hp⟩
        have hwalk : walk edges start path c := hinv (c, path) (List.mem_cons_self ..)
        have hstep : step_ok edges (c, u, n) := neighbors_query_step_ok hmem
        subst hn hp
        refine ⟨walk_append hwalk hstep, ?_⟩
        simpa using Nat.succ_le_of_lt hlt
      | none =>
        refine bfs_loop_sound fuel q2 v2 p ?_ h
        intro x hx
        rcases bfs_scan_none_mem hr x hx with hq | ⟨n, u, hmem, hp⟩
        · exact hinv x (List.mem_cons_of_mem _ hq)
        · subst hp
          exact walk_append (hinv (c, path) (List.mem_cons_self ..))
            (neighbors_query_step_ok hmem)
    · rw [if_neg hlt] at h
      exact absurd h (by simp)

/-- C3: path search treats every stored edge as undirected.  Whenever two
distinct existing nodes are joined by a stored edge `A→B` (other edges may
also be present), `find_path` succeeds in both query directions with a
one-hop path already at `max_depth = 1`. -/
theorem find_path_is_symmetric (s : GraphState) (ft fi tt ti : String)
    (a b : Nat) (e : EdgeRow)
    (ha : get_node_pk s ft fi = some a) (hb : get_node_pk s tt ti = some b)
    (hab : a ≠ b) (he : e ∈ s.edges) (hef : e.from_node = a)
    (het : e.to_node = b) :
    (∃ p, find_path s ft fi tt ti 1 = some p ∧ p.length = 1) ∧
    (∃ p, find_path s tt ti ft fi 1 = some p ∧ p.length = 1) := by
  have hfuel : 2 * s.edges.length + 2 = (2 * s.edges.length + 1) + 1 := rfl
  constructor
  · unfold find_path
    rw [ha, hb]
    dsimp only
    rw [if_neg hab, hfuel]
    simp only [bfs_loop, List.length_nil, if_pos Nat.zero_lt_one]
    have hmem : (b, e.edge_type) ∈ neighbors_query s.edges a := by
      have := mem_neighbors_query_from he hef
      rwa [het] at this
    have hnv : b ∉ [a] := by simp [Ne.symm hab]
    rcases bfs_scan_finds (neighbors_query s.edges a) [a] [] a [] hmem hnv
      with ⟨p, v2, q2, hscan, hplen⟩
    rw [hscan]
    exact ⟨p, rfl, by simpa using hplen⟩
  · unfold find_path
    rw [ha, hb]
    dsimp only
    rw [if_neg (Ne.symm hab), hfuel]
    simp only [bfs_loop, List.length_nil, if_pos Nat.zero_lt_one]
    have hmem : (a, e.edge_type) ∈ neighbors_query s.edges b := by
      have := mem_neighbors_query_to he het
      rwa [hef] at this
    have hnv : a ∉ [b] := by simp [hab]
    rcases bfs_scan_finds (neighbors_query s.edges b) [b] [] b [] hmem hnv
      with ⟨p, v2, q2, hscan, hplen⟩
    rw [hscan]
    exact ⟨p, rfl, by simpa using hplen⟩

/-- C3 witness: with the single stored edge `n:A → n:B`, both
`find_path(A,B,1)` and `find_path(B,A,1)` succeed with one hop. -/
theorem find_path_is_symmetric_witness :
    get_node_pk twoNodeEdge "n" "A" = some 1 ∧
    get_node_pk twoNodeEdge "n" "B" = some 2 ∧
    (⟨1, 1, 2, "e", 1, none⟩ : EdgeRow) ∈ twoNodeEdge.edges ∧
    (∃ p, find_path twoNodeEdge "n" "A" "n" "B" 1 = some p ∧ p.length = 1) ∧
    (∃ p, find_path twoNodeEdge "n" "B" "n" "A" 1 = some p ∧ p.length = 1) := by
  have hc := find_path_is_symmetric twoNodeEdge "n" "A" "n" "B" 1 2
    ⟨1, 1, 2, "e", 1, none⟩ (by decide) (by decide) (by decide) (by decide)
    rfl rfl
  exact ⟨by decide, by decide, by decide, hc.1, hc.2⟩

/-- C4: `find_path` respects `max_depth` as a hop bound.  On the chain
`A–B–C–D`, `find_path(A,D,5)` returns the 3-hop path and `find_path(A,D,2)`
returns `None`; in general, whenever every undirected walk between two
existing nodes is longer than `max_depth` hops (the hop distance exceeds
`max_depth`), `find_path` returns `None`. -/
theorem find_path_respects_max_depth :
    (find_path chainABCD "n" "A" "n" "D" 5
      = some [(1, "link", 2), (2, "link", 3), (3, "link", 4)]) ∧
    (find_path chainABCD "n" "A" "n" "D" 2 = none) ∧
    (∀ (s : GraphState) (ft fi tt ti : String) (a b d : Nat),
      get_node_pk s ft fi = some a → get_node_pk s tt ti = some b →
      (∀ p : List Step, walk s.edges a p b → d < p.length) →
      find_path s ft fi tt ti d = none) := by
  refine ⟨by decide, by decide, ?_⟩
  intro s ft fi tt ti a b d ha hb hfar
  cases hfp : find_path s ft fi tt ti d with
  | none => rfl
  | some p =>
    exfalso
    unfold find_path at hfp
    rw [ha, hb] at hfp
    dsimp only at hfp
    by_cases hab : a = b
    · rw [if_pos hab] at hfp
      injection hfp with hp
      have hw : walk s.edges a [] b := by simp only [walk]; exact hab
      have := hfar [] hw
      subst hp
      simp at this
    · rw [if_neg hab] at hfp
      have hinv : ∀ x ∈ [((a : Nat), ([] : List Step))],
          walk s.edges a x.2 x.1 := by
        intro x hx
        rcases List.mem_singleton.mp hx with rfl
        simp only [walk]
      rcases bfs_loop_sound _ _ _ p hinv hfp with ⟨hw, hlen⟩
      exact absurd (hfar p hw) (Nat.not_lt.mpr hlen)

/-- C4 witness: two isolated nodes with no edges are farther apart than any
bound (there is no walk at all), so `find_path` at `max_depth = 3` returns
`None`. -/
theorem find_path_respects_max_depth_witness :
    get_node_pk twoIsolated "n" "A" = some 1 ∧
    get_node_pk twoIsolated "n" "B" = some 2 ∧
    find_path twoIsolated "n" "A" "n" "B" 3 = none := by
  refine ⟨by decide, by decide, ?_⟩
  refine find_path_respects_max_depth.2.2 twoIsolated "n" "A" "n" "B" 1 2 3
    (by decide) (by decide) ?_
  intro p hw
  exfalso
  cases p with
  | nil =>
    simp only [walk] at hw
    exact absurd hw (by decide)
  | cons st rest =>
    obtain ⟨c, t, n⟩ := st
    simp only [walk] at hw
    rcases hw.2.1 with ⟨e, he, -⟩
    have hE : twoIsolated.edges = [] := by decide
    rw [hE] at he
    exact absurd he (List.not_mem_nil e)

/-- Helper: the edge list accumulated by the `get_subgraph` loop is exactly
the concatenation, over the nodes the loop expands in order, of the full
edge-fetch result for each expanded node. -/
theorem subgraph_loop_edges_eq (g : List EdgeRow) (max_depth : Nat) :
    ∀ (fuel : Nat) (q : List (Nat × Nat)) (visited : List Nat),
      (subgraph_loop g max_depth fuel q visited).1
        = ((sub_expanded g max_depth fuel q visited).map
            (fun c => (edges_touching g c).map toSubEdge)).flatten
  | 0, _, _ => by simp [subgraph_loop, sub_expanded]
  | fuel + 1, [], _ => by simp [subgraph_loop, sub_expanded]
  | fuel + 1, (c, depth) :: rest, visited => by
    simp only [subgraph_loop, sub_expanded]
    by_cases hd : depth ≥ max_depth
    · rw [if_pos hd, if_pos hd]
      exact subgraph_loop_edges_eq g max_depth fuel rest visited
    · rw [if_neg hd, if_neg hd]
      simp only [List.map_cons, List.flatten_cons]
      rw [subgraph_loop_edges_eq g max_depth fuel _ _]

/-- C5 amended: every stored edge at least one of whose endpoints is
expanded by the subgraph BFS (popped at depth strictly below `max_depth`)
appears in the edge list returned by `get_subgraph`.  (The original claim
also demanded edges between two nodes that both sit exactly at the depth
boundary; those are omitted by the code — see the counterexample.) -/
theorem subgraph_contains_expanded_touching_edges (s : GraphState)
    (nt ni : String) (d : Nat) (e : EdgeRow) (c : Nat) (he : e ∈ s.edges)
    (hc : c ∈ expanded_nodes s nt ni d)
    (htouch : e.from_node = c ∨ e.to_node = c) :
    toSubEdge e ∈ (get_subgraph s nt ni d).edges := by
  unfold expanded_nodes at hc
  unfold get_subgraph
  cases hpk : get_node_pk s nt ni with
  | none =>
    rw [hpk] at hc
    exact absurd hc (List.not_mem_nil _)
  | some pk =>
    rw [hpk] at hc
    dsimp only
    rw [subgraph_loop_edges_eq]
    refine List.mem_flatten.mpr
      ⟨(edges_touching s.edges c).map toSubEdge, List.mem_map_of_mem _ hc, ?_⟩
    refine List.mem_map_of_mem _ (List.mem_filter.mpr ⟨he, ?_⟩)
    rcases htouch with h | h <;> simp [h]

/-- C5 witness (for the amended claim): in the triangle `S–A`, `S–B`,
`A–B` with `max_depth = 1`, the start node `S` (pk 1) is expanded, so the
stored edge `S–A` appears in the subgraph edge list. -/
theorem subgraph_expanded_touching_witness :
    ((⟨1, 1, 2, "e", 1, none⟩ : EdgeRow) ∈ triangleSAB.edges) ∧
    1 ∈ expanded_nodes triangleSAB "n" "S" 1 ∧
    toSubEdge ⟨1, 1, 2, "e", 1, none⟩
      ∈ (get_subgraph triangleSAB "n" "S" 1).edges := by
  refine ⟨by decide, by decide, ?_⟩
  exact subgraph_contains_expanded_touching_edges triangleSAB "n" "S" 1
    ⟨1, 1, 2, "e", 1, none⟩ 1 (by decide) (by decide) (Or.inl rfl)

/-- C5 counterexample: in the triangle `S–A`, `S–B`, `A–B` with
`max_depth = 1`, the nodes `A` (pk 2) and `B` (pk 3) are both in the node
set returned by `get_subgraph`, the store holds the edge `A→B`, yet no
returned edge joins pks 2 and 3 in either direction — both endpoints sit
exactly at the depth boundary and are never expanded. -/
theorem subgraph_misses_boundary_edge :
    (∃ e ∈ triangleSAB.edges, e.from_node = 2 ∧ e.to_node = 3) ∧
    (∃ nd ∈ (get_subgraph triangleSAB "n" "S" 1).nodes, nd.pk = 2) ∧
    (∃ nd ∈ (get_subgraph triangleSAB "n" "S" 1).nodes, nd.pk = 3) ∧
    (∀ se ∈ (get_subgraph triangleSAB "n" "S" 1).edges,
      ¬(se.from_node = 2 ∧ se.to_node = 3) ∧
      ¬(se.from_node = 3 ∧ se.to_node = 2)) := by
  decide

/-- Helper: one membership with a positive value forces a positive sum. -/
theorem one_le_sum_map_of_mem {α : Type} (f : α → Nat) :
    ∀ (l : List α) (a : α), a ∈ l → 1 ≤ f a → 1 ≤ (l.map f).sum
  | [], a, ha, _ => absurd ha (List.not_mem_nil a)
  | x :: t, a, ha, h1 => by
    simp only [List.map_cons, List.sum_cons]
    rcases List.mem_cons.mp ha with rfl | ht
    · omega
    · have := one_le_sum_map_of_mem f t a ht h1
      omega

/-- Helper: two distinct memberships with positive values force a sum of at
least two. -/
theorem two_le_sum_map {α : Type} (f : α → Nat) :
    ∀ (l : List α) (a b : α), a ∈ l → b ∈ l → a ≠ b →
      1 ≤ f a → 1 ≤ f b → 2 ≤ (l.map f).sum
  | [], a, b, ha, _, _, _, _ => absurd ha (List.not_mem_nil a)
  | x :: t, a, b, ha, hb, hab, h1, h2 => by
    simp only [List.map_cons, List.sum_cons]
    rcases List.mem_cons.mp ha with rfl | hat
    · rcases List.mem_cons.mp hb with rfl | hbt
      · exact absurd rfl hab
      · have := one_le_sum_map_of_mem f t b hbt h2
        omega
    · rcases List.mem_cons.mp hb with rfl | hbt
      · have := one_le_sum_map_of_mem f t a hat h1
        omega
      · have := two_le_sum_map f t a b hat hbt hab h1 h2
        omega

/-- Helper: occurrence counting distributes over flattening. -/
theorem count_flatten_eq_sum {α : Type} [DecidableEq α] (a : α) :
    ∀ (L : List (List α)), L.flatten.count a = (L.map (List.count a)).sum
  | [] => rfl
  | l :: L => by
    simp only [List.flatten_cons, List.count_append, List.map_cons,
      List.sum_cons, count_flatten_eq_sum a L]

/-- C10: the subgraph edge list is a multiset, not a set.  A stored edge
whose two (distinct) endpoints are both expanded by the BFS is fetched once
per expanded endpoint, so it occurs at least twice in the returned edge
list. -/
theorem subgraph_edges_are_a_multiset (s : GraphState) (nt ni : String)
    (d : Nat) (e : EdgeRow) (he : e ∈ s.edges)
    (hne : e.from_node ≠ e.to_node)
    (hf : e.from_node ∈ expanded_nodes s nt ni d)
    (ht : e.to_node ∈ expanded_nodes s nt ni d) :
    2 ≤ ((get_subgraph s nt ni d).edges).count (toSubEdge e) := by
  unfold expanded_nodes at hf ht
  unfold get_subgraph
  cases hpk : get_node_pk s nt ni with
  | none =>
    rw [hpk] at hf
    exact absurd hf (List.not_mem_nil _)
  | some pk =>
    rw [hpk] at hf ht
    dsimp only
    rw [subgraph_loop_edges_eq, count_flatten_eq_sum, List.map_map]
    refine two_le_sum_map _ _ e.from_node e.to_node hf ht hne ?_ ?_
    · simp only [Function.comp]
      refine List.count_pos_iff.mpr ?_
      exact List.mem_map_of_mem _ (List.mem_filter.mpr ⟨he, by simp⟩)
    · simp only [Function.comp]
      refine List.count_pos_iff.mpr ?_
      exact List.mem_map_of_mem _ (List.mem_filter.mpr ⟨he, by simp⟩)

/-- C10 witness: with the single edge `A→B` and `max_depth = 2`, both
endpoints are expanded and the returned edge list contains the edge (at
least) twice. -/
theorem subgraph_edges_are_a_multiset_witness :
    ((⟨1, 1, 2, "e", 1, none⟩ : EdgeRow) ∈ twoNodeEdge.edges) ∧
    (1 : Nat) ≠ 2 ∧
    1 ∈ expanded_nodes twoNodeEdge "n" "A" 2 ∧
    2 ∈ expanded_nodes twoNodeEdge "n" "A" 2 ∧
    2 ≤ ((get_subgraph twoNodeEdge "n" "A" 2).edges).count
      (toSubEdge ⟨1, 1, 2, "e", 1, none⟩) := by
  refine ⟨by decide, by decide, by decide, by decide, ?_⟩
  exact subgraph_edges_are_a_multiset twoNodeEdge "n" "A" 2
    ⟨1, 1, 2, "e", 1, none⟩ (by decide) (by decide) (by decide) (by decide)

/-- C8 amended: when `add_edge` finds an existing row for the resolved
`(from_node, to_node, edge_type)` triple, the row keeps its id, its weight
becomes the old weight plus the delta, and its stored properties become
exactly the JSON of the newly supplied map (`NULL` for `None`/empty) — the
old map is discarded wholesale, not merged. -/
theorem add_edge_replaces_properties (s : GraphState)
    (ft fi tt ti et : String) (w : Rat)
    (p : Option (List (String × String))) (a b : Nat) (e0 : EdgeRow)
    (ha : get_node_pk s ft fi = some a) (hb : get_node_pk s tt ti = some b)
    (hfind : s.edges.find? (fun e => e.from_node == a && e.to_node == b &&
      e.edge_type == et) = some e0) :
    (∃ e ∈ (add_edge s ft fi tt ti et w p).edges, e.id = e0.id) ∧
    (∀ e ∈ (add_edge s ft fi tt ti et w p).edges, e.id = e0.id →
      e.properties = props_json p ∧ e.weight = e0.weight + w) := by
  unfold add_edge
  rw [ha]
  dsimp only
  rw [hb]
  dsimp only
  rw [hfind]
  dsimp only
  constructor
  · have he0 : e0 ∈ s.edges := List.mem_of_find?_eq_some hfind
    refine ⟨_, List.mem_map_of_mem _ he0, ?_⟩
    simp
  · intro e hmem hid
    rcases List.mem_map.mp hmem with ⟨e', he', rfl⟩
    by_cases h' : (e'.id == e0.id) = true
    · rw [if_pos h']
      exact ⟨rfl, rfl⟩
    · rw [if_neg h'] at hid
      exact absurd (beq_iff_eq.mpr hid) h'

/-- C8 witness: on the store holding the Acme edge with properties
`{"a":"1"}` and weight 1, re-observing with properties `{"b":"2"}` and
weight 1 keeps the row (id 1), sets its weight to 2, and replaces its
properties with exactly `{"b":"2"}`. -/
theorem add_edge_replaces_properties_witness :
    get_node_pk acmePropsOnce "file" "1" = some 1 ∧
    get_node_pk acmePropsOnce "project" "Acme" = some 2 ∧
    acmePropsOnce.edges.find? (fun e => e.from_node == 1 && e.to_node == 2 &&
      e.edge_type == "belongs_to")
      = some ⟨1, 1, 2, "belongs_to", 1, some [("a", "1")]⟩ ∧
    ((∃ e ∈ (add_edge acmePropsOnce "file" "1" "project" "Acme" "belongs_to"
        1 (some [("b", "2")])).edges, e.id = 1) ∧
     (∀ e ∈ (add_edge acmePropsOnce "file" "1" "project" "Acme" "belongs_to"
        1 (some [("b", "2")])).edges, e.id = 1 →
        e.properties = props_json (some [("b", "2")]) ∧
        e.weight = 1 + 1)) := by
  refine ⟨by decide, by decide, by decide, ?_⟩
  exact add_edge_replaces_properties acmePropsOnce "file" "1" "project"
    "Acme" "belongs_to" 1 (some [("b", "2")]) 1 2
    ⟨1, 1, 2, "belongs_to", 1, some [("a", "1")]⟩
    (by decide) (by decide) (by decide)

end FileGraphStore
